import Mathlib

/-!
# Verification of `ris_full_workflow.py`

A shallow embedding, over `List Char` and pure oracles, of the pure logic of
the RIS automation script: the `type_keys` escaping routine, the interactive
date and report-count parsers, the response post-processing of
`analyze_image`, the date-picker retry loop of `search_and_open`, the
clipboard retry loop of `extract_image`, the image downscaling step, and the
per-report main loop.  Each claim about the script is settled by a theorem
about these definitions.
-/

namespace RisWorkflow

/-! ## Text escaping (`escape_for_type_keys`, src lines 140-154) -/

/-- Python `text.replace("\r\n", "\n").replace("\r", "\n")`: left-to-right
normalization of newlines, `\r\n` pairs first, then any remaining `\r`. -/
def normalizeNewlines : List Char → List Char
  | [] => []
  | [c] => [if c = '\r' then '\n' else c]
  | c :: d :: rest =>
    if c = '\r' ∧ d = '\n' then '\n' :: normalizeNewlines rest
    else (if c = '\r' then '\n' else c) :: normalizeNewlines (d :: rest)

/-- The per-character replacement of the loop body: the `special` dict entries
for the seven special characters, the `\x7bENTER\x7d` substitution for a
newline, and the identity for every other character. -/
def escapeChar (c : Char) : List Char :=
  if c = '{' then ['{', '{', '}']
  else if c = '}' then ['{', '}', '}']
  else if c = '+' then ['{', '+', '}']
  else if c = '^' then ['{', '^', '}']
  else if c = '%' then ['{', '%', '}']
  else if c = '(' then ['{', '(', '}']
  else if c = ')' then ['{', ')', '}']
  else if c = '\n' then ['{', 'E', 'N', 'T', 'E', 'R', '}']
  else [c]

/-- The routine `escape_for_type_keys`: normalize newlines, then concatenate the
per-character replacements. -/
def escape_for_type_keys (text : List Char) : List Char :=
  ((normalizeNewlines text).map escapeChar).flatten

/-- The characters `type_keys` treats as special (the keys of the `special`
dict in the source). -/
def isSpecialChar (c : Char) : Bool :=
  c = '{' || c = '}' || c = '+' || c = '^' || c = '%' || c = '(' || c = ')'

/-- Conceptual inverse of the escape semantics: each three-character token
`\x7bX\x7d` (`X` special) maps back to `X`, the token `\x7bENTER\x7d` maps
back to a newline, and any other character is kept as-is. -/
def unescape : List Char → List Char
  | c :: d :: e :: f :: g :: h :: i :: rest =>
    if c = '{' then
      if d = 'E' ∧ e = 'N' ∧ f = 'T' ∧ g = 'E' ∧ h = 'R' ∧ i = '}' then
        '\n' :: unescape rest
      else if e = '}' ∧ isSpecialChar d then
        d :: unescape (f :: g :: h :: i :: rest)
      else c :: unescape (d :: e :: f :: g :: h :: i :: rest)
    else c :: unescape (d :: e :: f :: g :: h :: i :: rest)
  | c :: d :: e :: rest =>
    if c = '{' ∧ e = '}' ∧ isSpecialChar d then d :: unescape rest
    else c :: unescape (d :: e :: rest)
  | c :: rest => c :: unescape rest
  | [] => []

/-- Number of `\x7bENTER\x7d` tokens in a character stream. -/
def enterTokenCount : List Char → Nat
  | c :: d :: e :: f :: g :: h :: i :: rest =>
    if c = '{' ∧ d = 'E' ∧ e = 'N' ∧ f = 'T' ∧ g = 'E' ∧ h = 'R' ∧ i = '}' then
      enterTokenCount rest + 1
    else enterTokenCount (d :: e :: f :: g :: h :: i :: rest)
  | _ :: rest => enterTokenCount rest
  | [] => 0

/-- Number of newlines in the raw input, counting a `\r\n` pair as a single
newline. -/
def newlineCount : List Char → Nat
  | [] => 0
  | [c] => if c = '\r' ∨ c = '\n' then 1 else 0
  | c :: d :: rest =>
    if c = '\r' ∧ d = '\n' then newlineCount rest + 1
    else if c = '\r' ∨ c = '\n' then newlineCount (d :: rest) + 1
    else newlineCount (d :: rest)

/-- Scans a stream, consuming whole escape tokens, and checks that every
character outside an escape token is not special.  A `\x7b` that does not
open a recognized token counts as an unescaped special. -/
def noUnescapedSpecials : List Char → Bool
  | c :: d :: e :: f :: g :: h :: i :: rest =>
    if c = '{' then
      if d = 'E' ∧ e = 'N' ∧ f = 'T' ∧ g = 'E' ∧ h = 'R' ∧ i = '}' then
        noUnescapedSpecials rest
      else if e = '}' ∧ isSpecialChar d then
        noUnescapedSpecials (f :: g :: h :: i :: rest)
      else false
    else !(isSpecialChar c) && noUnescapedSpecials (d :: e :: f :: g :: h :: i :: rest)
  | c :: d :: e :: rest =>
    if c = '{' then
      if e = '}' ∧ isSpecialChar d then noUnescapedSpecials rest
      else false
    else !(isSpecialChar c) && noUnescapedSpecials (d :: e :: rest)
  | c :: rest => !(isSpecialChar c) && noUnescapedSpecials rest
  | [] => true

theorem unescape_cons_of_ne (c : Char) (rest : List Char) (hc : c ≠ '{') :
    unescape (c :: rest) = c :: unescape rest := by
  rcases rest with _ | ⟨d, _ | ⟨e, _ | ⟨f, _ | ⟨g, _ | ⟨h, _ | ⟨i, t⟩⟩⟩⟩⟩⟩ <;>
    simp [unescape, hc]

theorem unescape_token3 (d : Char) (rest : List Char) (hd : isSpecialChar d = true) :
    unescape ('{' :: d :: '}' :: rest) = d :: unescape rest := by
  have hdE : d ≠ 'E' := by intro h; subst h; exact absurd hd (by decide)
  rcases rest with _ | ⟨f, _ | ⟨g, _ | ⟨h, _ | ⟨i, t⟩⟩⟩⟩ <;>
    simp [unescape, hd, hdE]

theorem unescape_escapeChar (c : Char) (rest : List Char) :
    unescape (escapeChar c ++ rest) = c :: unescape rest := by
  by_cases h1 : c = '{'
  · subst h1; exact unescape_token3 _ _ (by decide)
  by_cases h2 : c = '}'
  · subst h2; exact unescape_token3 _ _ (by decide)
  by_cases h3 : c = '+'
  · subst h3; exact unescape_token3 _ _ (by decide)
  by_cases h4 : c = '^'
  · subst h4; exact unescape_token3 _ _ (by decide)
  by_cases h5 : c = '%'
  · subst h5; exact unescape_token3 _ _ (by decide)
  by_cases h6 : c = '('
  · subst h6; exact unescape_token3 _ _ (by decide)
  by_cases h7 : c = ')'
  · subst h7; exact unescape_token3 _ _ (by decide)
  by_cases h8 : c = '\n'
  · subst h8; simp [escapeChar, unescape]
  · rw [escapeChar]
    simp only [h1, h2, h3, h4, h5, h6, h7, h8, if_false]
    simpa using unescape_cons_of_ne c rest h1

theorem unescape_escaped (l : List Char) :
    unescape ((l.map escapeChar).flatten) = l := by
  induction l with
  | nil => rfl
  | cons c rest ih =>
      simp only [List.map_cons, List.flatten_cons]
      rw [unescape_escapeChar, ih]

theorem enterTokenCount_skipA (c : Char) (rest : List Char) (hc : c ≠ '{') :
    enterTokenCount (c :: rest) = enterTokenCount rest := by
  rcases rest with _ | ⟨d, _ | ⟨e, _ | ⟨f, _ | ⟨g, _ | ⟨h, _ | ⟨i, t⟩⟩⟩⟩⟩⟩ <;>
    simp [enterTokenCount, hc]

theorem enterTokenCount_skipB (d : Char) (rest : List Char) (hd : d ≠ 'E') :
    enterTokenCount ('{' :: d :: rest) = enterTokenCount (d :: rest) := by
  rcases rest with _ | ⟨e, _ | ⟨f, _ | ⟨g, _ | ⟨h, _ | ⟨i, t⟩⟩⟩⟩⟩ <;>
    simp [enterTokenCount, hd]

theorem enterTokenCount_enter (rest : List Char) :
    enterTokenCount ('{' :: 'E' :: 'N' :: 'T' :: 'E' :: 'R' :: '}' :: rest) =
      enterTokenCount rest + 1 := by
  rw [enterTokenCount, if_pos (by decide)]

theorem enterTokenCount_token3 (d : Char) (rest : List Char)
    (hd : isSpecialChar d = true) :
    enterTokenCount ('{' :: d :: '}' :: rest) = enterTokenCount rest := by
  have hdE : d ≠ 'E' := by intro hx; subst hx; exact absurd hd (by decide)
  rw [enterTokenCount_skipB d ('}' :: rest) hdE]
  by_cases hdb : d = '{'
  · subst hdb
    rw [enterTokenCount_skipB '}' rest (by decide), enterTokenCount_skipA '}' rest (by decide)]
  · rw [enterTokenCount_skipA d ('}' :: rest) hdb,
      enterTokenCount_skipA '}' rest (by decide)]

theorem enterTokenCount_escapeChar (c : Char) (rest : List Char) :
    enterTokenCount (escapeChar c ++ rest) =
      enterTokenCount rest + (if c = '\n' then 1 else 0) := by
  by_cases h1 : c = '{'
  · subst h1
    show enterTokenCount ('{' :: '{' :: '}' :: rest) = _
    rw [enterTokenCount_token3 '{' rest (by decide), if_neg (by decide), Nat.add_zero]
  by_cases h2 : c = '}'
  · subst h2
    show enterTokenCount ('{' :: '}' :: '}' :: rest) = _
    rw [enterTokenCount_token3 '}' rest (by decide), if_neg (by decide), Nat.add_zero]
  by_cases h3 : c = '+'
  · subst h3
    show enterTokenCount ('{' :: '+' :: '}' :: rest) = _
    rw [enterTokenCount_token3 '+' rest (by decide), if_neg (by decide), Nat.add_zero]
  by_cases h4 : c = '^'
  · subst h4
    show enterTokenCount ('{' :: '^' :: '}' :: rest) = _
    rw [enterTokenCount_token3 '^' rest (by decide), if_neg (by decide), Nat.add_zero]
  by_cases h5 : c = '%'
  · subst h5
    show enterTokenCount ('{' :: '%' :: '}' :: rest) = _
    rw [enterTokenCount_token3 '%' rest (by decide), if_neg (by decide), Nat.add_zero]
  by_cases h6 : c = '('
  · subst h6
    show enterTokenCount ('{' :: '(' :: '}' :: rest) = _
    rw [enterTokenCount_token3 '(' rest (by decide), if_neg (by decide), Nat.add_zero]
  by_cases h7 : c = ')'
  · subst h7
    show enterTokenCount ('{' :: ')' :: '}' :: rest) = _
    rw [enterTokenCount_token3 ')' rest (by decide), if_neg (by decide), Nat.add_zero]
  by_cases h8 : c = '\n'
  · subst h8
    show enterTokenCount ('{' :: 'E' :: 'N' :: 'T' :: 'E' :: 'R' :: '}' :: rest) = _
    rw [enterTokenCount_enter rest, if_pos rfl]
  · rw [escapeChar]
    simp only [h1, h2, h3, h4, h5, h6, h7, h8, if_false, List.cons_append, List.nil_append]
    rw [enterTokenCount_skipA c rest h1, Nat.add_zero]

theorem enterTokenCount_escaped (l : List Char) :
    enterTokenCount ((l.map escapeChar).flatten) = l.count '\n' := by
  induction l with
  | nil => rfl
  | cons c rest ih =>
      simp only [List.map_cons, List.flatten_cons, List.count_cons]
      rw [enterTokenCount_escapeChar, ih]
      simp [beq_iff_eq]

theorem count_newline_normalize (s : List Char) :
    (normalizeNewlines s).count '\n' = newlineCount s := by
  induction s using normalizeNewlines.induct with
  | case1 => rfl
  | case2 c =>
      by_cases h1 : c = '\r'
      · simp [normalizeNewlines, newlineCount, h1]
      by_cases h2 : c = '\n'
      · simp [normalizeNewlines, newlineCount, h1, h2]
      · have h3 : ('\n' : Char) ≠ c := fun hx => h2 hx.symm
        simp [normalizeNewlines, newlineCount, h1, h2, h3, List.count_cons]
  | case3 c d rest h ih =>
      obtain ⟨hc, hd⟩ := h
      subst hc; subst hd
      simp [normalizeNewlines, newlineCount, List.count_cons, ih]
  | case4 c d rest h ih =>
      by_cases h1 : c = '\r'
      · have hd : d ≠ '\n' := fun hx => h ⟨h1, hx⟩
        subst h1
        simp [normalizeNewlines, newlineCount, hd, List.count_cons, ih]
      by_cases h2 : c = '\n'
      · subst h2
        simp [normalizeNewlines, newlineCount, h1, List.count_cons, ih]
      · have h3 : ('\n' : Char) ≠ c := fun hx => h2 hx.symm
        simp [normalizeNewlines, newlineCount, h1, h2, h3, List.count_cons, ih]

theorem noUnescapedSpecials_skipA (c : Char) (rest : List Char)
    (hc : isSpecialChar c = false) :
    noUnescapedSpecials (c :: rest) = noUnescapedSpecials rest := by
  have hbrace : c ≠ '{' := by intro hx; subst hx; exact absurd hc (by decide)
  rcases rest with _ | ⟨d, _ | ⟨e, _ | ⟨f, _ | ⟨g, _ | ⟨h, _ | ⟨i, t⟩⟩⟩⟩⟩⟩ <;>
    simp [noUnescapedSpecials, hc, hbrace]

theorem noUnescapedSpecials_token3 (d : Char) (rest : List Char)
    (hd : isSpecialChar d = true) :
    noUnescapedSpecials ('{' :: d :: '}' :: rest) = noUnescapedSpecials rest := by
  have hdE : d ≠ 'E' := by intro hx; subst hx; exact absurd hd (by decide)
  rcases rest with _ | ⟨f, _ | ⟨g, _ | ⟨h, _ | ⟨i, t⟩⟩⟩⟩ <;>
    simp [noUnescapedSpecials, hd, hdE]

theorem noUnescapedSpecials_escapeChar (c : Char) (rest : List Char) :
    noUnescapedSpecials (escapeChar c ++ rest) = noUnescapedSpecials rest := by
  by_cases h1 : c = '{'
  · subst h1; exact noUnescapedSpecials_token3 _ _ (by decide)
  by_cases h2 : c = '}'
  · subst h2; exact noUnescapedSpecials_token3 _ _ (by decide)
  by_cases h3 : c = '+'
  · subst h3; exact noUnescapedSpecials_token3 _ _ (by decide)
  by_cases h4 : c = '^'
  · subst h4; exact noUnescapedSpecials_token3 _ _ (by decide)
  by_cases h5 : c = '%'
  · subst h5; exact noUnescapedSpecials_token3 _ _ (by decide)
  by_cases h6 : c = '('
  · subst h6; exact noUnescapedSpecials_token3 _ _ (by decide)
  by_cases h7 : c = ')'
  · subst h7; exact noUnescapedSpecials_token3 _ _ (by decide)
  by_cases h8 : c = '\n'
  · subst h8; simp [escapeChar, noUnescapedSpecials]
  · have hspec : isSpecialChar c = false := by
      simp [isSpecialChar, h1, h2, h3, h4, h5, h6, h7]
    rw [escapeChar]
    simp only [h1, h2, h3, h4, h5, h6, h7, h8, if_false, List.cons_append, List.nil_append]
    exact noUnescapedSpecials_skipA c rest hspec

theorem noUnescapedSpecials_escaped (l : List Char) :
    noUnescapedSpecials ((l.map escapeChar).flatten) = true := by
  induction l with
  | nil => rfl
  | cons c rest ih =>
      simp only [List.map_cons, List.flatten_cons]
      rw [noUnescapedSpecials_escapeChar, ih]

theorem normalizeNewlines_eq_self (l : List Char) (h : '\r' ∉ l) :
    normalizeNewlines l = l := by
  induction l using normalizeNewlines.induct with
  | case1 => rfl
  | case2 c =>
      have hc : c ≠ '\r' := fun hx => h (by simp [hx])
      simp [normalizeNewlines, hc]
  | case3 c d rest hcd ih =>
      exact absurd (by simp [hcd.1]) h
  | case4 c d rest hcd ih =>
      have hc : c ≠ '\r' := fun hx => h (by simp [hx])
      have htail : '\r' ∉ d :: rest := fun hx => h (List.mem_cons_of_mem _ hx)
      simp [normalizeNewlines, hcd, hc, ih htail]

/-- C1.  Escaping round-trip and output hygiene for `escape_for_type_keys`:
reversing the escape semantics of the output reproduces the input characters
up to newline normalization (and exactly reproduces any input without `\r`),
every newline (`\n`, `\r`, or `\r\n`) of the input yields exactly one
`\x7bENTER\x7d` token, and the output contains no unescaped special
character. -/
theorem escape_for_type_keys_spec (text : List Char) :
    unescape (escape_for_type_keys text) = normalizeNewlines text
    ∧ ('\r' ∉ text → unescape (escape_for_type_keys text) = text)
    ∧ enterTokenCount (escape_for_type_keys text) = newlineCount text
    ∧ noUnescapedSpecials (escape_for_type_keys text) = true := by
  refine ⟨?_, ?_, ?_, ?_⟩
  · rw [escape_for_type_keys]
    exact unescape_escaped _
  · intro h
    rw [escape_for_type_keys, unescape_escaped, normalizeNewlines_eq_self _ h]
  · rw [escape_for_type_keys, enterTokenCount_escaped, count_newline_normalize]
  · rw [escape_for_type_keys]
    exact noUnescapedSpecials_escaped _

/-- Witness for C1 at a concrete input containing specials and a newline. -/
theorem escape_for_type_keys_spec_witness :
    '\r' ∉ ("a+b(c)\n100%^".toList)
    ∧ unescape (escape_for_type_keys ("a+b(c)\n100%^".toList)) = "a+b(c)\n100%^".toList := by
  refine ⟨by decide, ?_⟩
  exact (escape_for_type_keys_spec ("a+b(c)\n100%^".toList)).2.1 (by decide)

/-! ## Python string/int primitives shared by the parsers -/

/-- Python `str.strip()`: drop leading and trailing whitespace. -/
def pyStrip (l : List Char) : List Char :=
  ((l.dropWhile Char.isWhitespace).reverse.dropWhile Char.isWhitespace).reverse

/-- Decimal digits to a number; `none` when empty or containing a
non-digit. -/
def digitsToNat (l : List Char) : Option Nat :=
  if l = [] then none
  else if l.all Char.isDigit then
    some (l.foldl (fun a c => a * 10 + (c.toNat - 48)) 0)
  else none

/-- Python `int(s)` on a decimal string: strips whitespace, allows one leading
sign, then requires at least one digit; `none` models the `ValueError`. -/
def pyInt (s : List Char) : Option Int :=
  match pyStrip s with
  | '+' :: ds => (digitsToNat ds).map (fun n => (n : Int))
  | '-' :: ds => (digitsToNat ds).map (fun n => -(n : Int))
  | ds => (digitsToNat ds).map (fun n => (n : Int))

/-! ## Date parsing (`prompt_for_date`, src lines 97-138) -/

/-- A `datetime` date triple. -/
structure PyDate where
  year : Int
  month : Int
  day : Int
deriving DecidableEq

/-- Days per month as the `datetime` constructor validates them, with the
Gregorian leap rule for February. -/
def daysInMonth (y m : Int) : Int :=
  if m = 2 then
    if (y % 4 = 0 ∧ y % 100 ≠ 0) ∨ y % 400 = 0 then 29 else 28
  else if m = 4 ∨ m = 6 ∨ m = 9 ∨ m = 11 then 30
  else 31

/-- Validity check of `datetime(year, month, day)`: `MINYEAR = 1`,
`MAXYEAR = 9999`, and the day must fit the month. -/
def isValidDate (y m d : Int) : Bool :=
  decide (1 ≤ y) && decide (y ≤ 9999) && decide (1 ≤ m) && decide (m ≤ 12)
    && decide (1 ≤ d) && decide (d ≤ daysInMonth y m)

/-- Python `s.split("/")`: split at every slash, keeping empty pieces. -/
def splitSlash : List Char → List (List Char)
  | [] => [[]]
  | c :: rest =>
    if c = '/' then [] :: splitSlash rest
    else
      match splitSlash rest with
      | p :: ps => (c :: p) :: ps
      | [] => [[c]]

/-- The `replace("-", "/")` normalization applied before splitting. -/
def dashToSlash (c : Char) : Char :=
  if c = '-' then '/' else c

/-- The `try` body of `prompt_for_date` after splitting: a 3-part list is
read as `Y/M/D`, a 2-part list as `M/D` with the current year, anything else
raises; `int()` failures and invalid dates also fall back to `today`. -/
def dateFromParts (today : PyDate) : List (List Char) → PyDate
  | [a, b, c] =>
    match pyInt a, pyInt b, pyInt c with
    | some y, some m, some d =>
      if isValidDate y m d then ⟨y, m, d⟩ else today
    | _, _, _ => today
  | [a, b] =>
    match pyInt a, pyInt b with
    | some m, some d =>
      if isValidDate today.year m d then ⟨today.year, m, d⟩ else today
    | _, _ => today
  | _ => today

/-- Models `prompt_for_date` as a function of the console input and the current date:
empty (stripped) input means today; otherwise dashes are normalized to
slashes, the input is split on `/`, and the parts are interpreted by
`dateFromParts`. -/
def prompt_for_date (today : PyDate) (input : List Char) : PyDate :=
  let s := pyStrip input
  if s = [] then today
  else dateFromParts today (splitSlash (s.map dashToSlash))

theorem dateFromParts_valid_or_today (today : PyDate) (parts : List (List Char)) :
    (∃ y m d, dateFromParts today parts = ⟨y, m, d⟩ ∧ isValidDate y m d = true)
    ∨ dateFromParts today parts = today := by
  rcases parts with _ | ⟨a, _ | ⟨b, _ | ⟨c, _ | ⟨d4, t⟩⟩⟩⟩
  · right; rfl
  · right; rfl
  · rw [dateFromParts]
    split
    · split
      · exact Or.inl ⟨_, _, _, rfl, by assumption⟩
      · right; rfl
    · right; rfl
  · rw [dateFromParts]
    split
    · split
      · exact Or.inl ⟨_, _, _, rfl, by assumption⟩
      · right; rfl
    · right; rfl
  · right; rfl

/-- C3.  `prompt_for_date` maps `"2024/03/05"` to 2024-03-05, maps `"03/05"`
to March 5 of the current year, returns today on empty input, returns today
on malformed input such as `"abcd"`, and on every input returns either a
validated parsed date or today (it never fails). -/
theorem prompt_for_date_spec (today : PyDate)
    (hy : 1 ≤ today.year ∧ today.year ≤ 9999) :
    prompt_for_date today ("2024/03/05".toList) = ⟨2024, 3, 5⟩
    ∧ prompt_for_date today ("03/05".toList) = ⟨today.year, 3, 5⟩
    ∧ prompt_for_date today ("".toList) = today
    ∧ prompt_for_date today ("abcd".toList) = today
    ∧ ∀ input : List Char,
        (∃ y m d, prompt_for_date today input = ⟨y, m, d⟩ ∧ isValidDate y m d = true)
        ∨ prompt_for_date today input = today := by
  refine ⟨rfl, ?_, rfl, rfl, ?_⟩
  · show (if isValidDate today.year 3 5 then (⟨today.year, 3, 5⟩ : PyDate) else today) = _
    have hv : isValidDate today.year 3 5 = true := by
      simp only [isValidDate, daysInMonth]
      simp only [Bool.and_eq_true, decide_eq_true_eq]
      norm_num
      omega
    rw [hv]
    simp
  · intro input
    rw [prompt_for_date]
    split
    · right; rfl
    · exact dateFromParts_valid_or_today today _

/-- Witness for C3 at a concrete `today`. -/
theorem prompt_for_date_spec_witness :
    (1 ≤ (2025 : Int) ∧ (2025 : Int) ≤ 9999)
    ∧ prompt_for_date ⟨2025, 1, 15⟩ ("03/05".toList) = ⟨2025, 3, 5⟩ := by
  refine ⟨by decide, ?_⟩
  exact (prompt_for_date_spec ⟨2025, 1, 15⟩ (by decide)).2.1

/-- C9.  Dash-separated dates are accepted: `prompt_for_date` is invariant
under replacing every `-` with `/` in its input, and `"2024-03-05"` parses to
2024-03-05 just as `"2024/03/05"` does. -/
theorem prompt_for_date_dash_spec :
    (∀ (today : PyDate) (input : List Char),
      prompt_for_date today (input.map dashToSlash) = prompt_for_date today input)
    ∧ ∀ today : PyDate, prompt_for_date today ("2024-03-05".toList) = ⟨2024, 3, 5⟩ := by
  constructor
  · intro today input
    have hws : ∀ c, (dashToSlash c).isWhitespace = c.isWhitespace := by
      intro c
      by_cases hc : c = '-'
      · subst hc; rfl
      · simp [dashToSlash, hc]
    have hdw : ∀ l : List Char,
        List.dropWhile Char.isWhitespace (l.map dashToSlash)
          = (List.dropWhile Char.isWhitespace l).map dashToSlash := by
      intro l
      induction l with
      | nil => rfl
      | cons c t ih =>
          by_cases hcw : Char.isWhitespace c = true
          · simp [List.dropWhile_cons, hws c, hcw, ih]
          · simp [List.dropWhile_cons, hws c, hcw]
    have hstrip : pyStrip (input.map dashToSlash) = (pyStrip input).map dashToSlash := by
      rw [pyStrip, pyStrip, hdw, ← List.map_reverse, hdw, ← List.map_reverse]
    have hidem : ∀ c, dashToSlash (dashToSlash c) = dashToSlash c := by
      intro c
      by_cases hc : c = '-'
      · subst hc; rfl
      · simp [dashToSlash, hc]
    rw [prompt_for_date, prompt_for_date]
    rw [hstrip]
    by_cases hemp : pyStrip input = []
    · simp [hemp]
    · have hemp2 : (pyStrip input).map dashToSlash ≠ [] := by
        simpa using hemp
      rw [if_neg hemp2, if_neg hemp]
      have hmaps : ((pyStrip input).map dashToSlash).map dashToSlash
          = (pyStrip input).map dashToSlash := by
        rw [List.map_map]
        exact List.map_congr_left (fun c _ => hidem c)
      rw [hmaps]
  · intro today; rfl

/-! ## Response post-processing (`analyze_image`, src lines 508-561) -/

/-- The fixed instruction prompt sent with every request. -/
def promptText : List Char :=
  ("Describe the findings in this chest X-ray in plain text. Ignore any overlaid text such as \x27Please refer to arrow(s) in key image(s)\x27 — that is a software annotation, not part of the X-ray. Do not include it in your response.").toList

/-- The first element of Python `content.split("\n\n")`: everything before
the first blank-line boundary. -/
def firstParagraph : List Char → List Char
  | [] => []
  | [c] => [c]
  | c :: d :: rest =>
    if c = '\n' ∧ d = '\n' then []
    else c :: firstParagraph (d :: rest)

/-- The cleanup applied to the extracted response text: strip an echoed
prompt prefix (then `strip()`), keep only the first blank-line-delimited
paragraph, and `strip()` the result. -/
def postprocessResponse (content : List Char) : List Char :=
  let c1 :=
    if promptText.isPrefixOf content then pyStrip (content.drop promptText.length)
    else content
  pyStrip (firstParagraph c1)

theorem isPrefixOf_append_self (l t : List Char) : l.isPrefixOf (l ++ t) = true := by
  induction l with
  | nil => simp [List.isPrefixOf]
  | cons c rest ih => simp [List.isPrefixOf, ih]

set_option maxRecDepth 20000 in
/-- C2.  Response cleanup: a body that echoes the prompt verbatim followed by
`"Findings: normal.\n\nFindings: normal."` cleans up to exactly
`"Findings: normal."`; in general an echoed prompt prefix is removed and only
the (stripped) text before the first blank-line paragraph boundary is kept,
and a body that does not start with the prompt is only paragraph-truncated
and stripped. -/
theorem analyze_postprocess_spec :
    postprocessResponse (promptText ++ ("Findings: normal.\n\nFindings: normal.").toList)
      = ("Findings: normal.").toList
    ∧ (∀ tail : List Char,
        postprocessResponse (promptText ++ tail) = pyStrip (firstParagraph (pyStrip tail)))
    ∧ (∀ content : List Char, promptText.isPrefixOf content = false →
        postprocessResponse content = pyStrip (firstParagraph content)) := by
  refine ⟨?_, ?_, ?_⟩
  · rfl
  · intro tail
    rw [postprocessResponse]
    simp only [isPrefixOf_append_self, if_pos, List.drop_left]
  · intro content h
    rw [postprocessResponse]
    simp only [h, Bool.false_eq_true, if_false]

/-- Witness for C2 on a body that does not echo the prompt. -/
theorem analyze_postprocess_spec_witness :
    promptText.isPrefixOf (("Findings: ok.\n\nFindings: ok.").toList) = false
    ∧ postprocessResponse (("Findings: ok.\n\nFindings: ok.").toList)
        = pyStrip (firstParagraph (("Findings: ok.\n\nFindings: ok.").toList)) := by
  refine ⟨by decide, ?_⟩
  exact analyze_postprocess_spec.2.2 _ (by decide)

/-! ## Response shape parsing (`analyze_image`, src lines 533-539) -/

/-- Shape of the decoded JSON response: a list of objects, a single object,
or any other value (which the source stringifies).  Objects are modelled as
association lists from key to string value. -/
inductive HFResult where
  | list : List (List (List Char × List Char)) → HFResult
  | obj : List (List Char × List Char) → HFResult
  | other : List Char → HFResult

def gtKey : List Char := ("generated_text").toList

def textKey : List Char := ("text").toList

/-- Python `dict.get(k, "")`. -/
def dictGet (o : List (List Char × List Char)) (k : List Char) : List Char :=
  (o.lookup k).getD []

/-- The extraction step: `result[0].get("generated_text", "")` for a list
(`none` models the `IndexError` on an empty list, caught by the generic
`except`), `result.get("generated_text", "") or result.get("text", "")` for
an object, and `str(result)` otherwise. -/
def extractContent : HFResult → Option (List Char)
  | .list [] => none
  | .list (o :: _) => some (dictGet o gtKey)
  | .obj o =>
    some (if dictGet o gtKey = [] then dictGet o textKey else dictGet o gtKey)
  | .other s => some s

/-- C5 counterexample: in the list shape the key `"text"` is NOT consulted —
a list whose first object carries the text only under `"text"` extracts as
the empty default, not as the carried text. -/
theorem analyze_parse_shape_counterexample :
    extractContent (HFResult.list [[(textKey, ("hello").toList)]]) = some []
    ∧ some ([] : List Char) ≠ some (("hello").toList) := by
  exact ⟨rfl, by decide⟩

/-- C5 (amended).  The parser accepts both shapes; in the single-object shape
it extracts under `"generated_text"` or, when that key is missing or empty,
under `"text"`; in the list shape it extracts only under `"generated_text"`
of the first element (yielding the empty default when that key is missing,
even if `"text"` is present); an empty list fails. -/
theorem analyze_parse_shape_spec :
    (∀ o rest v, o.lookup gtKey = some v →
        extractContent (HFResult.list (o :: rest)) = some v)
    ∧ (∀ o rest, o.lookup gtKey = none →
        extractContent (HFResult.list (o :: rest)) = some [])
    ∧ (∀ o v, o.lookup gtKey = some v → v ≠ [] →
        extractContent (HFResult.obj o) = some v)
    ∧ (∀ o v, o.lookup gtKey = none → o.lookup textKey = some v →
        extractContent (HFResult.obj o) = some v)
    ∧ extractContent (HFResult.list []) = none := by
  refine ⟨?_, ?_, ?_, ?_, rfl⟩
  · intro o rest v h
    simp [extractContent, dictGet, h]
  · intro o rest h
    simp [extractContent, dictGet, h]
  · intro o v h hv
    simp [extractContent, dictGet, h, hv]
  · intro o v h hv
    simp [extractContent, dictGet, h, hv]

/-- Witness for C5: both key names work for the object shape, only
`"generated_text"` for the list shape. -/
theorem analyze_parse_shape_spec_witness :
    ([(textKey, ("b").toList)].lookup gtKey = none
      ∧ [(textKey, ("b").toList)].lookup textKey = some (("b").toList))
    ∧ extractContent (HFResult.obj [(textKey, ("b").toList)]) = some (("b").toList) := by
  refine ⟨⟨by decide, by decide⟩, ?_⟩
  exact analyze_parse_shape_spec.2.2.2.1 _ _ (by decide) (by decide)

/-! ## Report-count parsing (`__main__`, src lines 666-674) -/

/-- Python `int(num_input)` coerced to at least 1, with `ValueError` defaulting
to 1. -/
def parseReportCount (input : List Char) : Int :=
  match pyInt input with
  | some n => if n < 1 then 1 else n
  | none => 1

/-- C7.  Report-count parsing: `"3"` parses to 3, `"0"` to 1, every string
parsing to a negative integer to 1, every non-numeric string to 1, and the
result is always at least 1. -/
theorem report_count_spec :
    parseReportCount (("3").toList) = 3
    ∧ parseReportCount (("0").toList) = 1
    ∧ (∀ s n, pyInt s = some n → n < 0 → parseReportCount s = 1)
    ∧ (∀ s, pyInt s = none → parseReportCount s = 1)
    ∧ ∀ s, 1 ≤ parseReportCount s := by
  refine ⟨rfl, rfl, ?_, ?_, ?_⟩
  · intro s n h hneg
    rw [parseReportCount, h]
    exact if_pos (by omega)
  · intro s h
    rw [parseReportCount, h]
  · intro s
    rw [parseReportCount]
    rcases pyInt s with _ | n
    · norm_num
    · dsimp only
      split
      · norm_num
      · omega

/-- Witness for C7 on the negative input `"-5"` and non-numeric `"abc"`. -/
theorem report_count_spec_witness :
    (pyInt (("-5").toList) = some ((-5 : Int)) ∧ ((-5 : Int) < 0))
    ∧ parseReportCount (("-5").toList) = 1
    ∧ pyInt (("abc").toList) = none
    ∧ parseReportCount (("abc").toList) = 1 := by
  refine ⟨⟨by decide, by decide⟩, ?_, by decide, ?_⟩
  · exact report_count_spec.2.2.1 (("-5").toList) (-5) (by decide) (by decide)
  · exact report_count_spec.2.2.2.1 _ (by decide)

/-! ## Date-picker retry loop (`search_and_open`, src lines 291-342) -/

/-- Outcome of the per-control date-setting loop: number of click-and-type
attempts performed, whether verification succeeded, and whether the
exhaustion warning (the `for`-`else` branch) was printed. -/
structure DateSetResult where
  attempts : Nat
  success : Bool
  warned : Bool
deriving DecidableEq

/-- Python `needle in hay` for strings: substring containment. -/
def containsSub (needle : List Char) : List Char → Bool
  | [] => needle.isPrefixOf []
  | c :: t => needle.isPrefixOf (c :: t) || containsSub needle t

/-- The expected un-padded `f"{year}/{month}/{day}"` text. -/
def expectedDateText (y m d : Nat) : List Char :=
  (toString y).toList ++ '/' :: (toString m).toList ++ '/' :: (toString d).toList

/-- The verification test `expected_date in new_date or new_date ==
expected_date`. -/
def dateMatches (expected readback : List Char) : Bool :=
  containsSub expected readback || decide (readback = expected)

/-- The loop `for attempt in range(3)` with verification `break` and a `for`-`else`
warning; `readback` gives the control text re-read after each attempt. -/
def runAttempts (expected : List Char) (readback : Nat → List Char) :
    Nat → Nat → DateSetResult
  | attempt, 0 => ⟨attempt, false, true⟩
  | attempt, r + 1 =>
    if dateMatches expected (readback attempt) then ⟨attempt + 1, true, false⟩
    else runAttempts expected readback (attempt + 1) r

/-- The date-setting routine for a single date-picker control. -/
def setDatePicker (expected : List Char) (readback : Nat → List Char) : DateSetResult :=
  runAttempts expected readback 0 3

/-- C6.  For every date-picker control the setting routine attempts at most
3 times, stops on the first attempt whose re-read text matches the expected
un-padded `Y/M/D` representation, and when every attempt fails verification
it warns (returning normally) after exactly 3 attempts. -/
theorem date_picker_retry_spec (expected : List Char) (readback : Nat → List Char) :
    (setDatePicker expected readback).attempts ≤ 3
    ∧ ((setDatePicker expected readback).success = false →
        (setDatePicker expected readback).attempts = 3
        ∧ (setDatePicker expected readback).warned = true)
    ∧ (∀ k, k < 3 → dateMatches expected (readback k) = true →
        (∀ j, j < k → dateMatches expected (readback j) = false) →
        setDatePicker expected readback = ⟨k + 1, true, false⟩)
    ∧ ((∀ k, k < 3 → dateMatches expected (readback k) = false) →
        setDatePicker expected readback = ⟨3, false, true⟩) := by
  by_cases h0 : dateMatches expected (readback 0) = true
  · have hres : setDatePicker expected readback = ⟨1, true, false⟩ := by
      simp [setDatePicker, runAttempts, h0]
    refine ⟨by rw [hres]; decide, by rw [hres]; intro hx; simp at hx, ?_, ?_⟩
    · intro k hk hmatch hprev
      rcases k with _ | j
      · simpa using hres
      · have hc := hprev 0 (by omega)
        rw [h0] at hc
        simp at hc
    · intro hall
      have hc := hall 0 (by omega)
      rw [h0] at hc
      simp at hc
  by_cases h1 : dateMatches expected (readback 1) = true
  · have hres : setDatePicker expected readback = ⟨2, true, false⟩ := by
      simp [setDatePicker, runAttempts, h0, h1]
    refine ⟨by rw [hres]; decide, by rw [hres]; intro hx; simp at hx, ?_, ?_⟩
    · intro k hk hmatch hprev
      rcases k with _ | (_ | j)
      · rw [hmatch] at h0; simp at h0
      · simpa using hres
      · have hc := hprev 1 (by omega)
        rw [h1] at hc
        simp at hc
    · intro hall
      have hc := hall 1 (by omega)
      rw [h1] at hc
      simp at hc
  by_cases h2 : dateMatches expected (readback 2) = true
  · have hres : setDatePicker expected readback = ⟨3, true, false⟩ := by
      simp [setDatePicker, runAttempts, h0, h1, h2]
    refine ⟨by rw [hres], by rw [hres]; intro hx; simp at hx, ?_, ?_⟩
    · intro k hk hmatch hprev
      rcases k with _ | (_ | (_ | j))
      · rw [hmatch] at h0; simp at h0
      · rw [hmatch] at h1; simp at h1
      · simpa using hres
      · omega
    · intro hall
      have hc := hall 2 (by omega)
      rw [h2] at hc
      simp at hc
  · have hres : setDatePicker expected readback = ⟨3, false, true⟩ := by
      simp [setDatePicker, runAttempts, h0, h1, h2]
    refine ⟨by rw [hres], by rw [hres]; intro hx; exact ⟨rfl, rfl⟩, ?_, ?_⟩
    · intro k hk hmatch hprev
      rcases k with _ | (_ | (_ | j))
      · rw [hmatch] at h0; simp at h0
      · rw [hmatch] at h1; simp at h1
      · rw [hmatch] at h2; simp at h2
      · omega
    · intro hall
      exact hres

/-- Witness for C6: a readback that matches immediately stops after one
attempt. -/
theorem date_picker_retry_spec_witness :
    dateMatches (expectedDateText 2025 3 5) (("2025/3/5").toList) = true
    ∧ setDatePicker (expectedDateText 2025 3 5) (fun _ => ("2025/3/5").toList)
        = ⟨1, true, false⟩ := by
  refine ⟨by decide, ?_⟩
  exact (date_picker_retry_spec _ _).2.2.1 0 (by decide) (by decide)
    (fun j hj => absurd hj (by omega))

/-! ## Image extraction retries and the per-report loop
(`extract_image`, src lines 409-485; `__main__`, src lines 676-716) -/

/-- The `for attempt in range(3)` clipboard retry: `clipboard attempt` tells
whether `ImageGrab.grabclipboard()` returns an image after attempt number
`attempt`. -/
def extractTry (clipboard : Nat → Bool) : Nat → Nat → Bool
  | _, 0 => false
  | attempt, r + 1 =>
    if clipboard attempt then true else extractTry clipboard (attempt + 1) r

/-- Models `extract_image` as a function of whether the PACS viewer window was found
and of the clipboard oracle: both failure paths `return False` (no
exception); success saves the image and returns `True`. -/
def extract_image (viewerFound : Bool) (clipboard : Nat → Bool) : Bool :=
  if viewerFound = false then false
  else extractTry clipboard 0 3

/-- Per-report outcomes of the externally-observed steps: whether
`extract_image()` returned `True`, and the `analyze_image()` return value
(`none` for `None`). -/
structure IterEnv where
  extractOk : Bool
  findings : Option (List Char)

/-- The `log_message` calls of the main loop that identify control flow. -/
inductive LogEvent where
  | processing (k : Nat)
  | reportCompleted (k : Nat)
  | failExtract (k : Nat)
  | failAnalyze (k : Nat)
deriving DecidableEq

/-- A report iteration that runs to completion: extraction succeeded and the
findings are truthy (non-`None`, non-empty). -/
def stepSucceeds (e : IterEnv) : Prop :=
  e.extractOk = true ∧ ∃ f, e.findings = some f ∧ f ≠ []

/-- The `for report_num in range(num_reports)` loop with its two `break`
sites: returns `(all_succeeded, report_num at exit, log)`. -/
def runReportsGo (env : Nat → IterEnv) : Nat → Nat → List LogEvent →
    Bool × Nat × List LogEvent
  | k, 0, log => (true, k, log)
  | k, r + 1, log =>
    if (env k).extractOk then
      match (env k).findings with
      | some f =>
        if f = [] then (false, k, log ++ [LogEvent.processing k, LogEvent.failAnalyze k])
        else runReportsGo env (k + 1) r
          (log ++ [LogEvent.processing k, LogEvent.reportCompleted k])
      | none => (false, k, log ++ [LogEvent.processing k, LogEvent.failAnalyze k])
    else (false, k, log ++ [LogEvent.processing k, LogEvent.failExtract k])

/-- How the run ends: the success summary, the finished-with-errors summary
(both reached by normal control flow after the loop), or the
`search_and_open` failure path that skips the loop. -/
inductive RunEnd where
  | summaryOk (total : Nat)
  | summaryErrors (completed total : Nat)
  | searchFailed
deriving DecidableEq

/-- The `__main__` workflow after configuration and prompting: run the loop
when the search succeeded, then log the appropriate summary. -/
def mainWorkflow (searchOk : Bool) (total : Nat) (env : Nat → IterEnv) :
    RunEnd × List LogEvent :=
  if searchOk = false then (RunEnd.searchFailed, [])
  else
    match runReportsGo env 0 total [] with
    | (true, _, log) => (RunEnd.summaryOk total, log)
    | (false, completed, log) => (RunEnd.summaryErrors completed total, log)

theorem runReportsGo_extract_fail (env : Nat → IterEnv) :
    ∀ (m n s : Nat) (log : List LogEvent), m < n →
      (∀ j, j < m → stepSucceeds (env (s + j))) →
      (env (s + m)).extractOk = false →
      ∃ log2, runReportsGo env s n log = (false, s + m, log2)
        ∧ LogEvent.failExtract (s + m) ∈ log2 := by
  intro m
  induction m with
  | zero =>
      intro n s log hn hprev hfail
      rcases n with _ | r
      · omega
      · refine ⟨log ++ [LogEvent.processing s, LogEvent.failExtract s], ?_, by simp⟩
        rw [runReportsGo]
        rw [Nat.add_zero] at hfail
        rw [if_neg (by simp [hfail])]
        simp
  | succ m ih =>
      intro n s log hn hprev hfail
      rcases n with _ | r
      · omega
      · have hs0 : stepSucceeds (env s) := by
          have := hprev 0 (by omega)
          simpa using this
        obtain ⟨hok, f, hf, hfne⟩ := hs0
        rw [runReportsGo, if_pos (by simp [hok]), hf]
        dsimp only
        rw [if_neg (by simpa using hfne)]
        have hprev2 : ∀ j, j < m → stepSucceeds (env (s + 1 + j)) := by
          intro j hj
          have := hprev (j + 1) (by omega)
          have he : s + (j + 1) = s + 1 + j := by omega
          rwa [he] at this
        have hfail2 : (env (s + 1 + m)).extractOk = false := by
          have he : s + (m + 1) = s + 1 + m := by omega
          rwa [he] at hfail
        obtain ⟨log2, hrun, hmem⟩ :=
          ih r (s + 1) (log ++ [LogEvent.processing s, LogEvent.reportCompleted s])
            (by omega) hprev2 hfail2
        refine ⟨log2, ?_, ?_⟩
        · rw [hrun]
          have he : s + 1 + m = s + (m + 1) := by omega
          rw [he]
        · have he : s + 1 + m = s + (m + 1) := by omega
          rwa [he] at hmem

/-- C4.  When image extraction fails (including because no image appears in
the clipboard after all 3 copy retries), `extract_image` returns `False`
rather than raising, and the main loop reports the failure and still reaches
its normal finished-with-errors summary: exhaustion of the extraction
retries does not fatally terminate the run. -/
theorem extract_failure_nonfatal_spec (total k : Nat) (env : Nat → IterEnv)
    (hk : k < total)
    (hprev : ∀ j, j < k → stepSucceeds (env j))
    (hfail : (env k).extractOk = false) :
    (mainWorkflow true total env).1 = RunEnd.summaryErrors k total
    ∧ LogEvent.failExtract k ∈ (mainWorkflow true total env).2
    ∧ ∀ clipboard : Nat → Bool, (∀ a, clipboard a = false) →
        extract_image true clipboard = false := by
  have hprev0 : ∀ j, j < k → stepSucceeds (env (0 + j)) := by
    intro j hj
    simpa using hprev j hj
  have hfail0 : (env (0 + k)).extractOk = false := by simpa using hfail
  obtain ⟨log2, hrun, hmem⟩ :=
    runReportsGo_extract_fail env k total 0 [] hk hprev0 hfail0
  rw [Nat.zero_add] at hrun hmem
  have hmain : mainWorkflow true total env = (RunEnd.summaryErrors k total, log2) := by
    rw [mainWorkflow, if_neg (by simp), hrun]
  refine ⟨by rw [hmain], by rw [hmain]; exact hmem, ?_⟩
  intro clipboard hclip
  simp [extract_image, extractTry, hclip]

/-- Witness for C4: one requested report whose extraction fails. -/
theorem extract_failure_nonfatal_spec_witness :
    ((0 : Nat) < 1 ∧ (IterEnv.mk false none).extractOk = false)
    ∧ (mainWorkflow true 1 (fun _ => IterEnv.mk false none)).1
        = RunEnd.summaryErrors 0 1 := by
  refine ⟨⟨by decide, rfl⟩, ?_⟩
  exact (extract_failure_nonfatal_spec 1 0 (fun _ => IterEnv.mk false none)
    (by decide) (fun j hj => absurd hj (by omega)) rfl).1

/-! ## Missing-image guard of `analyze_image` (src lines 488-492) -/

/-- The externally visible side effects of `analyze_image`. -/
inductive AnalyzeEffect where
  | httpPost
  | writeRawLog
  | writeReport
deriving DecidableEq

/-- Models `analyze_image` as a function of whether the persisted image file exists
and of the HTTP response (`none` models a network or HTTP-status failure):
returns the findings (or `none`) together with the effects performed, in
order.  The early `return None` happens before any request or write; an
extraction failure (`IndexError` on an empty list) is caught after the post
but before the raw log write. -/
def analyze_image (fileExists : Bool) (response : Option HFResult) :
    Option (List Char) × List AnalyzeEffect :=
  if fileExists = false then (none, [])
  else
    match response with
    | none => (none, [AnalyzeEffect.httpPost])
    | some r =>
      match extractContent r with
      | none => (none, [AnalyzeEffect.httpPost])
      | some content =>
        (some (postprocessResponse content),
          [AnalyzeEffect.httpPost, AnalyzeEffect.writeRawLog, AnalyzeEffect.writeReport])

/-- C10.  When the persisted image file does not exist, `analyze_image`
returns `None` immediately with no HTTP request and no file writes; by
contrast, whenever the file exists the HTTP post is always performed. -/
theorem analyze_missing_file_spec (response : Option HFResult) :
    analyze_image false response = (none, [])
    ∧ AnalyzeEffect.httpPost ∈ (analyze_image true response).2 := by
  constructor
  · rfl
  · rcases response with _ | r
    · simp [analyze_image]
    · rcases h : extractContent r with _ | c <;> simp [analyze_image, h]

/-! ## Image downscaling (`analyze_image`, src lines 494-504)

The source calls `img.thumbnail((1024, 1024), LANCZOS)` when the longer side
exceeds 1024.  PIL computes the target size with `round_aspect`, choosing
between floor and ceiling of the exact aspect-preserving value by an error
key and clamping to at least 1; the float arithmetic is modelled here with
exact rationals.  The PIL `float("inf")` guard for `n = 0` in the height key is
modelled by a finite value strictly larger than the key of any positive
candidate, which selects the same branch. -/

/-- PIL `round_aspect`: `max(min(floor(q), ceil(q), key=key), 1)`; Python
`min` keeps the first argument on ties. -/
def round_aspect (q : ℚ) (key : ℤ → ℚ) : ℤ :=
  max (if key ⌊q⌋ ≤ key ⌈q⌉ then ⌊q⌋ else ⌈q⌉) 1

/-- PIL `Image.thumbnail` target-size computation for the bounding box
`(maxW, maxH)`: no resize when the image already fits; otherwise the side
whose proportion exceeds the box is kept at the box bound and the other side
is the rounded aspect-preserving value. -/
def pilThumbnailSize (w h maxW maxH : ℕ) : ℕ × ℕ :=
  if maxW ≥ w ∧ maxH ≥ h then (w, h)
  else if (maxW : ℚ) / (maxH : ℚ) ≥ (w : ℚ) / (h : ℚ) then
    ((round_aspect ((maxH : ℚ) * ((w : ℚ) / (h : ℚ)))
        (fun n => |(w : ℚ) / (h : ℚ) - (n : ℚ) / (maxH : ℚ)|)).toNat, maxH)
  else
    (maxW,
      (round_aspect ((maxW : ℚ) / ((w : ℚ) / (h : ℚ)))
        (fun n => if n = 0 then |(w : ℚ) / (h : ℚ)| + (maxW : ℚ) + 1
                  else |(w : ℚ) / (h : ℚ) - (maxW : ℚ) / (n : ℚ)|)).toNat)

/-- The downscaling step of `analyze_image`: thumbnail only when the longer
side exceeds 1024 pixels. -/
def resizeForUpload (w h : ℕ) : ℕ × ℕ :=
  if max w h > 1024 then pilThumbnailSize w h 1024 1024 else (w, h)

theorem round_aspect_spec (q : ℚ) (key : ℤ → ℚ) (hq : 0 < q) :
    1 ≤ round_aspect q key
    ∧ |((round_aspect q key : ℤ) : ℚ) - q| < 1
    ∧ round_aspect q key ≤ ⌈q⌉ := by
  have hceil1 : 1 ≤ ⌈q⌉ := by
    have := Int.ceil_pos.mpr hq
    omega
  have hfc : ⌊q⌋ ≤ ⌈q⌉ := Int.floor_le_ceil q
  have hfloor_le : ((⌊q⌋ : ℤ) : ℚ) ≤ q := Int.floor_le q
  have hfloor_gt : q - 1 < ((⌊q⌋ : ℤ) : ℚ) := Int.sub_one_lt_floor q
  have hceil_ge : q ≤ ((⌈q⌉ : ℤ) : ℚ) := Int.le_ceil q
  have hceil_lt : ((⌈q⌉ : ℤ) : ℚ) < q + 1 := Int.ceil_lt_add_one q
  rw [round_aspect]
  by_cases hif : key ⌊q⌋ ≤ key ⌈q⌉
  · rw [if_pos hif]
    by_cases hfl : 1 ≤ ⌊q⌋
    · rw [max_eq_left hfl]
      refine ⟨hfl, ?_, hfc⟩
      rw [abs_lt]
      constructor <;> linarith
    · rw [max_eq_right (by omega : ⌊q⌋ ≤ 1)]
      refine ⟨le_refl 1, ?_, hceil1⟩
      have hfl0 : ((⌊q⌋ : ℤ) : ℚ) ≤ 0 := by exact_mod_cast (by omega : ⌊q⌋ ≤ 0)
      have hq1 : q < 1 := by linarith
      rw [abs_lt]
      push_cast
      constructor <;> linarith
  · rw [if_neg hif, max_eq_left hceil1]
    refine ⟨hceil1, ?_, le_refl _⟩
    rw [abs_lt]
    constructor <;> linarith

theorem toNat_cast_rat (x : ℤ) (hx : 0 ≤ x) : ((x.toNat : ℕ) : ℚ) = (x : ℚ) := by
  rw [← Int.cast_natCast, Int.toNat_of_nonneg hx]

theorem pilThumbnailSize_spec (w h : ℕ) (hw : 0 < w) (hh : 0 < h)
    (hbig : ¬((1024 : ℕ) ≥ w ∧ (1024 : ℕ) ≥ h)) :
    (w ≤ h → (pilThumbnailSize w h 1024 1024).2 = 1024
      ∧ |((pilThumbnailSize w h 1024 1024).1 : ℚ) - 1024 * (w : ℚ) / (h : ℚ)| < 1
      ∧ (pilThumbnailSize w h 1024 1024).1 ≤ 1024)
    ∧ (h < w → (pilThumbnailSize w h 1024 1024).1 = 1024
      ∧ |((pilThumbnailSize w h 1024 1024).2 : ℚ) - 1024 * (h : ℚ) / (w : ℚ)| < 1
      ∧ (pilThumbnailSize w h 1024 1024).2 ≤ 1024) := by
  have hh0 : (0 : ℚ) < (h : ℚ) := by exact_mod_cast hh
  have hw0 : (0 : ℚ) < (w : ℚ) := by exact_mod_cast hw
  constructor
  · intro hwh
    have haspect : (w : ℚ) / (h : ℚ) ≤ 1 := by
      rw [div_le_one hh0]
      exact_mod_cast hwh
    have hcond : ((1024 : ℕ) : ℚ) / ((1024 : ℕ) : ℚ) ≥ (w : ℚ) / (h : ℚ) := by
      push_cast
      rw [div_self (by norm_num)]
      exact haspect
    have hres : pilThumbnailSize w h 1024 1024
        = ((round_aspect (((1024 : ℕ) : ℚ) * ((w : ℚ) / (h : ℚ)))
            (fun n => |(w : ℚ) / (h : ℚ) - (n : ℚ) / ((1024 : ℕ) : ℚ)|)).toNat, 1024) := by
      rw [pilThumbnailSize, if_neg hbig, if_pos hcond]
    have hq0 : 0 < ((1024 : ℕ) : ℚ) * ((w : ℚ) / (h : ℚ)) := by
      push_cast
      exact mul_pos (by norm_num) (div_pos hw0 hh0)
    obtain ⟨hx1, habs, hxle⟩ := round_aspect_spec _
      (fun n => |(w : ℚ) / (h : ℚ) - (n : ℚ) / ((1024 : ℕ) : ℚ)|) hq0
    have hx0 : (0 : ℤ) ≤ round_aspect (((1024 : ℕ) : ℚ) * ((w : ℚ) / (h : ℚ)))
        (fun n => |(w : ℚ) / (h : ℚ) - (n : ℚ) / ((1024 : ℕ) : ℚ)|) :=
      le_trans (by norm_num) hx1
    have hqle : ((1024 : ℕ) : ℚ) * ((w : ℚ) / (h : ℚ)) ≤ ((1024 : ℕ) : ℚ) := by
      push_cast
      nlinarith [haspect]
    have hceil : ⌈((1024 : ℕ) : ℚ) * ((w : ℚ) / (h : ℚ))⌉ ≤ 1024 := by
      rw [Int.ceil_le]
      push_cast
      push_cast at hqle
      exact hqle
    have hxb : round_aspect (((1024 : ℕ) : ℚ) * ((w : ℚ) / (h : ℚ)))
        (fun n => |(w : ℚ) / (h : ℚ) - (n : ℚ) / ((1024 : ℕ) : ℚ)|) ≤ 1024 :=
      le_trans hxle hceil
    have hq_eq : ((1024 : ℕ) : ℚ) * ((w : ℚ) / (h : ℚ)) = 1024 * (w : ℚ) / (h : ℚ) := by
      push_cast
      ring
    refine ⟨by rw [hres], ?_, ?_⟩
    · rw [hres]
      show |(((round_aspect (((1024 : ℕ) : ℚ) * ((w : ℚ) / (h : ℚ)))
          (fun n => |(w : ℚ) / (h : ℚ) - (n : ℚ) / ((1024 : ℕ) : ℚ)|)).toNat : ℕ) : ℚ)
            - 1024 * (w : ℚ) / (h : ℚ)| < 1
      rw [toNat_cast_rat _ hx0, ← hq_eq]
      exact habs
    · rw [hres]
      exact Int.toNat_le.mpr (by exact_mod_cast hxb)
  · intro hwh
    have haspect : 1 < (w : ℚ) / (h : ℚ) := by
      rw [lt_div_iff₀ hh0, one_mul]
      exact_mod_cast hwh
    have hcond : ¬(((1024 : ℕ) : ℚ) / ((1024 : ℕ) : ℚ) ≥ (w : ℚ) / (h : ℚ)) := by
      push_cast
      rw [div_self (by norm_num)]
      exact not_le.mpr haspect
    have hres : pilThumbnailSize w h 1024 1024
        = (1024, (round_aspect (((1024 : ℕ) : ℚ) / ((w : ℚ) / (h : ℚ)))
            (fun n => if n = 0 then |(w : ℚ) / (h : ℚ)| + ((1024 : ℕ) : ℚ) + 1
                      else |(w : ℚ) / (h : ℚ) - ((1024 : ℕ) : ℚ) / (n : ℚ)|)).toNat) := by
      rw [pilThumbnailSize, if_neg hbig, if_neg hcond]
    have hq0 : 0 < ((1024 : ℕ) : ℚ) / ((w : ℚ) / (h : ℚ)) := by
      push_cast
      exact div_pos (by norm_num) (div_pos hw0 hh0)
    obtain ⟨hx1, habs, hxle⟩ := round_aspect_spec _
      (fun n => if n = 0 then |(w : ℚ) / (h : ℚ)| + ((1024 : ℕ) : ℚ) + 1
                else |(w : ℚ) / (h : ℚ) - ((1024 : ℕ) : ℚ) / (n : ℚ)|) hq0
    have hx0 : (0 : ℤ) ≤ round_aspect (((1024 : ℕ) : ℚ) / ((w : ℚ) / (h : ℚ)))
        (fun n => if n = 0 then |(w : ℚ) / (h : ℚ)| + ((1024 : ℕ) : ℚ) + 1
                  else |(w : ℚ) / (h : ℚ) - ((1024 : ℕ) : ℚ) / (n : ℚ)|) :=
      le_trans (by norm_num) hx1
    have hqle : ((1024 : ℕ) : ℚ) / ((w : ℚ) / (h : ℚ)) ≤ ((1024 : ℕ) : ℚ) := by
      push_cast
      exact div_le_self (by norm_num) (le_of_lt haspect)
    have hceil : ⌈((1024 : ℕ) : ℚ) / ((w : ℚ) / (h : ℚ))⌉ ≤ 1024 := by
      rw [Int.ceil_le]
      push_cast
      push_cast at hqle
      exact hqle
    have hxb : round_aspect (((1024 : ℕ) : ℚ) / ((w : ℚ) / (h : ℚ)))
        (fun n => if n = 0 then |(w : ℚ) / (h : ℚ)| + ((1024 : ℕ) : ℚ) + 1
                  else |(w : ℚ) / (h : ℚ) - ((1024 : ℕ) : ℚ) / (n : ℚ)|) ≤ 1024 :=
      le_trans hxle hceil
    have hq_eq : ((1024 : ℕ) : ℚ) / ((w : ℚ) / (h : ℚ)) = 1024 * (h : ℚ) / (w : ℚ) := by
      rw [div_div_eq_mul_div]
      push_cast
      ring
    refine ⟨by rw [hres], ?_, ?_⟩
    · rw [hres]
      show |(((round_aspect (((1024 : ℕ) : ℚ) / ((w : ℚ) / (h : ℚ)))
          (fun n => if n = 0 then |(w : ℚ) / (h : ℚ)| + ((1024 : ℕ) : ℚ) + 1
                    else |(w : ℚ) / (h : ℚ) - ((1024 : ℕ) : ℚ) / (n : ℚ)|)).toNat : ℕ) : ℚ)
            - 1024 * (h : ℚ) / (w : ℚ)| < 1
      rw [toNat_cast_rat _ hx0, ← hq_eq]
      exact habs
    · rw [hres]
      exact Int.toNat_le.mpr (by exact_mod_cast hxb)

/-- C8.  The downscaling step leaves an image whose longer side is at most
1024 px untouched, and otherwise shrinks it so that its longer side is
exactly the 1024 px bound, the other side is within one pixel of the exact
aspect-preserving value, and in all cases the resulting longer side is at
most 1024 px. -/
theorem image_downscale_spec (w h : ℕ) (hw : 1 ≤ w) (hh : 1 ≤ h) :
    max (resizeForUpload w h).1 (resizeForUpload w h).2 ≤ 1024
    ∧ (max w h ≤ 1024 → resizeForUpload w h = (w, h))
    ∧ (1024 < max w h → w ≤ h →
        (resizeForUpload w h).2 = 1024
        ∧ |((resizeForUpload w h).1 : ℚ) - 1024 * (w : ℚ) / (h : ℚ)| < 1)
    ∧ (1024 < max w h → h < w →
        (resizeForUpload w h).1 = 1024
        ∧ |((resizeForUpload w h).2 : ℚ) - 1024 * (h : ℚ) / (w : ℚ)| < 1) := by
  by_cases hbig : max w h ≤ 1024
  · have hres : resizeForUpload w h = (w, h) := by
      rw [resizeForUpload, if_neg (by omega)]
    exact ⟨by rw [hres]; simpa using hbig, fun _ => hres,
      fun hc _ => absurd hc (by omega), fun hc _ => absurd hc (by omega)⟩
  · have hgt : 1024 < max w h := by omega
    have hno : ¬((1024 : ℕ) ≥ w ∧ (1024 : ℕ) ≥ h) := by omega
    have hps := pilThumbnailSize_spec w h (by omega) (by omega) hno
    have hres : resizeForUpload w h = pilThumbnailSize w h 1024 1024 := by
      rw [resizeForUpload, if_pos hgt]
    by_cases hwh : w ≤ h
    · obtain ⟨h2, habs, hb1⟩ := hps.1 hwh
      refine ⟨?_, fun hc => absurd hc hbig, fun _ _ => ?_, fun _ hc => absurd hc (by omega)⟩
      · rw [hres, h2]
        omega
      · rw [hres]
        exact ⟨h2, habs⟩
    · obtain ⟨h1, habs, hb2⟩ := hps.2 (by omega)
      refine ⟨?_, fun hc => absurd hc hbig, fun _ hc => absurd hc (by omega), fun _ _ => ?_⟩
      · rw [hres, h1]
        omega
      · rw [hres]
        exact ⟨h1, habs⟩

/-- Witness for C8 at a 2048 × 1024 image (downscaled) and a 100 × 50 image
(untouched). -/
theorem image_downscale_spec_witness :
    (1 ≤ (100 : ℕ) ∧ 1 ≤ (50 : ℕ) ∧ max (100 : ℕ) 50 ≤ 1024)
    ∧ resizeForUpload 100 50 = (100, 50) := by
  refine ⟨⟨by decide, by decide, by decide⟩, ?_⟩
  exact (image_downscale_spec 100 50 (by decide) (by decide)).2.1 (by decide)

end RisWorkflow
